import Mathlib

/-!
Verification of the DATA-DOG/fastroute HTTP request router.

The repository's strings are byte strings; every operation the router performs
(slicing at '/' boundaries, prefix comparison, splitting) acts the same on the
UTF-8 byte string and on its character list, so strings are embedded as `List Char`.
-/

/-- A Go string, embedded as its list of characters. -/
abbrev GoStr := List Char

/-- Shorthand turning a Lean string literal into the embedded `GoStr`. -/
def gs (s : String) : GoStr := s.data

namespace Fastroute

/-- One key/value pair of `Params` (router.go line 94, part_005 line 509). -/
structure Param where
  key : GoStr
  value : GoStr
deriving DecidableEq, Repr, Inhabited

/-- `Params is a slice of key value pairs` (part_005 lines 504-509). -/
abbrev Params := List Param

/-- Embedding of `Params.push` (part_005 lines 522-527): lazily append one pair. -/
def Params.push (ps : Params) (key val : GoStr) : Params := ps ++ [⟨key, val⟩]

/-- Embedding of `ByName` (part_005 lines 511-520): value of the first matching key,
empty string if none matches. -/
def Params.ByName (ps : Params) (name : GoStr) : GoStr :=
  match ps with
  | [] => []
  | p :: rest => if p.key = name then p.value else Params.ByName rest name

/-- Embedding of `match` (part_005, second revision, lines 688-712): matches the
compiled pattern segments against an url left to right, pushing named parameters
onto `ps`; returns the Go function's boolean result together with the final
contents of `*ps`.  In Go, `end` scans from position 1 to the next `'/'` or the
end, so `url[1:end]` is the separator-free run after the first character and
`url[end:]` the rest from that separator on; both are rendered with
`takeWhile`/`dropWhile` on `url.drop 1`. -/
def matchSegs : List GoStr → GoStr → Params → Bool → Bool × Params
  | [], url, ps, ts =>
    ((!ts && decide (url = [])) || (ts && decide (url = ['/'])), ps)
  | segment :: rest, url, ps, ts =>
    if url.length = 0 then (false, ps)
    else if segment.get? 1 = some ':' then
      matchSegs rest ((url.drop 1).dropWhile (fun c => c ≠ '/'))
        (Params.push ps (segment.drop 2) ((url.drop 1).takeWhile (fun c => c ≠ '/'))) ts
    else if segment.get? 1 = some '*' then
      (true, Params.push ps (segment.drop 2) url)
    else if url.length < segment.length then (false, ps)
    else if url.take segment.length = segment then
      matchSegs rest (url.drop segment.length) ps ts
    else (false, ps)

end Fastroute

namespace RouterGo

open Fastroute in
/-- Embedding of `match` from src/router.go (lines 253-283), the file's older
revision of the segment matcher.  Its only difference from the part_005 revision
is the catch-all case (lines 269-273), which binds `url[1:]` — the remainder
WITHOUT its leading separator. -/
def matchSegs : List GoStr → GoStr → Params → Bool → Bool × Params
  | [], url, ps, ts =>
    ((!ts && decide (url = [])) || (ts && decide (url = ['/'])), ps)
  | seg :: rest, url, ps, ts =>
    if url.length = 0 then (false, ps)
    else if seg.get? 1 = some ':' then
      matchSegs rest ((url.drop 1).dropWhile (fun c => c ≠ '/'))
        (Params.push ps (seg.drop 2) ((url.drop 1).takeWhile (fun c => c ≠ '/'))) ts
    else if seg.get? 1 = some '*' then
      (true, Params.push ps (seg.drop 2) (url.drop 1))
    else if url.length < seg.length then (false, ps)
    else if url.take seg.length = seg then
      matchSegs rest (url.drop seg.length) ps ts
    else (false, ps)

end RouterGo

namespace Fastroute

/-- A character is a parameter marker when it is one of `":*"`
(`strings.IndexAny(p, ":*")`). -/
def isMark (c : Char) : Bool := c = ':' || c = '*'

/-- The four registration-time pattern errors (panic messages of `New`,
part_005 lines 649-656). -/
inductive PatternError where
  /-- `special param matching signs, must follow after slash` -/
  | notAfterSlash
  /-- `param must be named after sign` -/
  | unnamed
  /-- `match all, must be the last segment in pattern` -/
  | catchAllNotLast
  /-- `only one param per segment` -/
  | onePerSegment
deriving DecidableEq, Repr

/-- A compiled route: either a static path compared as-is, or the validated
slash-prefixed segments with the trailing-slash flag, the parameter count and
the normalized pattern. -/
inductive Compiled where
  | static (path : GoStr)
  | dynamic (segments : List GoStr) (ts : Bool) (num : Nat) (pattern : GoStr)
deriving DecidableEq, Repr

/-- `strings.Trim(p, "/")`: remove leading and trailing separators. -/
def trimSlashes (p : GoStr) : GoStr :=
  ((p.dropWhile (fun c => c = '/')).reverse.dropWhile (fun c => c = '/')).reverse

/-- `strings.Split(s, "/")`. -/
def splitSlash (s : GoStr) : List GoStr := s.splitOn '/'

/-- `strings.Join(xs, "/")`. -/
def joinSlash (xs : List GoStr) : GoStr := List.intercalate ['/'] xs

/-- `strings.IndexAny(seg, ":*")`: the index of the first marker character,
`none` standing for Go's `-1`. -/
def firstMark : GoStr → Option Nat
  | [] => none
  | c :: t => if isMark c then some 0 else (firstMark t).map (· + 1)

/-- The per-segment validation of `New` (part_005 lines 644-658): `pos` is
`strings.IndexAny(seg, ":*")`; the checks run in the source's order for the
segment, `isLast` telling whether `i+1 == len(segments)`. -/
def checkSeg (seg : GoStr) (isLast : Bool) : Option PatternError :=
  match firstMark seg with
  | none => none
  | some pos =>
    if pos ≠ 0 then some .notAfterSlash
    else if seg.length - 1 = pos then some .unnamed
    else if seg.head? = some '*' ∧ ¬ isLast then some .catchAllNotLast
    else if (seg.drop 1).any isMark then some .onePerSegment
    else none

/-- The validation loop of `New` over all split segments, reporting the first
segment's error (the Go loop panics at the first offending segment). -/
def checkSegs : List GoStr → Option PatternError
  | [] => none
  | [seg] => checkSeg seg true
  | seg :: rest =>
    match checkSeg seg false with
    | some e => some e
    | none => checkSegs rest

/-- `p := "/" + strings.TrimLeft(path, "/")` (part_005 line 616): normalize the
registered path to exactly one leading separator. -/
def normalizePattern (path : GoStr) : GoStr := '/' :: path.dropWhile (fun c => c = '/')

/-- `strings.Split(strings.Trim(p, "/"), "/")` (part_005 line 643): the
'/'-split segments the validation loop runs over. -/
def rawSegments (path : GoStr) : List GoStr :=
  splitSlash (trimSlashes (normalizePattern path))

/-- The pattern compilation and validation performed by `New`
(part_005 lines 615-659): normalize to exactly one leading separator
(`"/" + strings.TrimLeft(path, "/")`), classify marker-free patterns as static
with no further checks, otherwise split on `'/'`, validate every segment, and
record the slash-prefixed segments, the trailing-slash flag
(`p[len(p)-1] == '/'`) and the parameter count
(`strings.Count(p, ":") + strings.Count(p, "*")`). -/
def compilePattern (path : GoStr) : Except PatternError Compiled :=
  let p := normalizePattern path
  if ¬ p.any isMark then .ok (.static p)
  else
    match checkSegs (rawSegments path) with
    | some e => .error e
    | none => .ok (.dynamic ((rawSegments path).map (fun s => '/' :: s))
        (decide (p.getLast? = some '/')) (p.count ':' + p.count '*') p)

/-- The routing decision of the Router built by `New` for one request path
(part_005: static branch lines 630-640, dynamic branch lines 676-685), reduced
to the returned handler: a static path is compared as-is, a dynamic one runs
the segment matcher on a buffer.  `h` stands for the registered handler. -/
def routeHandler (c : Compiled) (h : Nat) (url : GoStr) : Option Nat :=
  match c with
  | .static p => if p = url then some h else none
  | .dynamic segments ts _ _ => if (matchSegs segments url [] ts).1 then some h else none

/-- A route built from a path and handler (`New(path, handler)`); an invalid
pattern panics at registration, so no request ever reaches it — rendered as the
never-matching router. -/
def route (path : GoStr) (h : Nat) : GoStr → Option Nat :=
  fun url =>
    match compilePattern path with
    | .ok c => routeHandler c h url
    | .error _ => none

/-- Embedding of `Chain` (part_005 lines 587-596): try all given routes in
order, until the first one able to route the request. -/
def Chain (routes : List (GoStr → Option Nat)) (req : GoStr) : Option Nat :=
  match routes with
  | [] => none
  | router :: rest =>
    match router req with
    | some handler => some handler
    | none => Chain rest req

end Fastroute

namespace Fastroute

/-- The segment-consumption phase of `match` (part_005 lines 690-710): the same
branches as `matchSegs`, stopped before the final trailing-slash check of line
711, returning the accumulated parameters and the unconsumed remainder, `none`
when a segment fails.  Catch-all segments (which return from inside the loop)
are out of its scope: C3 concerns patterns with no catch-all. -/
def consumeAll : List GoStr → GoStr → Params → Option (Params × GoStr)
  | [], url, ps => some (ps, url)
  | segment :: rest, url, ps =>
    if url.length = 0 then none
    else if segment.get? 1 = some ':' then
      consumeAll rest ((url.drop 1).dropWhile (fun c => c ≠ '/'))
        (Params.push ps (segment.drop 2) ((url.drop 1).takeWhile (fun c => c ≠ '/')))
    else if segment.get? 1 = some '*' then none
    else if url.length < segment.length then none
    else if url.take segment.length = segment then
      consumeAll rest (url.drop segment.length) ps
    else none

/-- The claim's four rejection conditions for one '/'-split segment (`isLast`:
the segment is the pattern's final one): a marker character that is not the
first character of its segment, a marker not followed by at least one name
character (a marker in last position), a catch-all marker occupying a
non-final segment, or more than one marker in the segment. -/
def segBad (seg : GoStr) (isLast : Prop) : Prop :=
  (seg.drop 1).any isMark = true
  ∨ (∃ c, seg.getLast? = some c ∧ isMark c = true)
  ∨ ('*' ∈ seg ∧ ¬ isLast)
  ∨ 2 ≤ seg.countP isMark

end Fastroute

instance {ε α : Type} [DecidableEq ε] [DecidableEq α] : DecidableEq (Except ε α) := fun a b =>
  match a, b with
  | .ok x, .ok y => decidable_of_iff (x = y) (by simp)
  | .ok _, .error _ => isFalse (by simp)
  | .error _, .ok _ => isFalse (by simp)
  | .error x, .error y => decidable_of_iff (x = y) (by simp)

namespace Fastroute

/-- The request's `Body` slot: either an opaque `io.ReadCloser` (the original
request body, or Go's nil), or a `*parameters` box (part_005 lines 714-719)
wrapped over the reader it last saved: `cap` and `vals` are the box's params
buffer (capacity and contents of the Go slice), `pid` identifies the pattern
whose pool created it, `hasPool` whether its pool pointer is non-nil (static
routes build boxes with a nil pool), `saved` its `ReadCloser` field. -/
inductive Body where
  | reader : Body
  | box (cap : Nat) (vals : Params) (pid : Nat) (hasPool : Bool) (saved : Body) : Body
deriving DecidableEq, Repr

/-- A buffer as it lives in a pool: capacity, contents (truncated to `[]` on
every `Put`), and the box's retained `ReadCloser` field. -/
abbrev PoolBuf := Nat × Params × Body

/-- The per-pattern free lists: one `sync.Pool` per dynamic pattern, modelled
as its stack of idle buffers. -/
abbrev Pools := Nat → List PoolBuf

/-- `pool.Put(p)` on the free list of the pattern that owns the box. -/
def putBuf (pools : Pools) (pid : Nat) (b : PoolBuf) : Pools :=
  fun q => if q = pid then b :: pools q else pools q

/-- The request-plus-pools state the parameter lifecycle operations act on. -/
structure ReqState where
  body : Body
  pools : Pools

/-- Embedding of `reset` (part_005 lines 726-732) applied to a box with the
given fields: when the box has a pool, truncate the params to length zero
(`p.params = p.params[0:0]`, capacity kept) and `Put` the box back on the pool
of the pattern that created it; then restore the box's saved reader as the
request body. -/
def reset (cap : Nat) (_vals : Params) (pid : Nat) (hasPool : Bool) (saved : Body)
    (st : ReqState) : ReqState :=
  { body := saved
    pools := if hasPool then putBuf st.pools pid (cap, [], saved) else st.pools }

/-- Embedding of `Recycle` (part_005 lines 498-502): `reset` only when the
request body is a `*parameters` box; a no-op otherwise. -/
def Recycle (st : ReqState) : ReqState :=
  match st.body with
  | .reader => st
  | .box cap vals pid hasPool saved => reset cap vals pid hasPool saved st

/-- The post-serve salvage performed by the `handle` wrapper (part_005 lines
669-674): after the registered handler ran, `reset` the box if the request
body still is one. -/
def serveFlush (st : ReqState) : ReqState :=
  match st.body with
  | .reader => st
  | .box cap vals pid hasPool saved => reset cap vals pid hasPool saved st

/-- Data of one compiled dynamic pattern: its matcher segments, its
trailing-slash flag and its parameter count `num`. -/
structure PatInfo where
  segments : List GoStr
  ts : Bool
  num : Nat

/-- `pool.Get()` (part_005 line 678, with the pool's `New` at lines 663-666):
take a buffer from the pattern's free list, or allocate a fresh
`make(Params, 0, num)` box whose reader field is nil. -/
def poolGet (pats : Nat → PatInfo) (pools : Pools) (pid : Nat) : PoolBuf × Pools :=
  match pools pid with
  | [] => (((pats pid).num, [], Body.reader), pools)
  | b :: rest => (b, fun q => if q = pid then rest else pools q)

/-- The dynamic route matcher built by `New` (part_005 lines 677-685): `Get` a
buffer, run `match` on it; on success wrap the box over the current request
body and return the handler, on failure `reset` the box — which returns it,
truncated, to its own pool and writes the box's stale reader field into the
request body, exactly as the source does. -/
def routeDyn (pats : Nat → PatInfo) (pid : Nat) (h : Nat) (url : GoStr)
    (st : ReqState) : Option Nat × ReqState :=
  let (b, pools1) := poolGet pats st.pools pid
  let (ok, vals1) := matchSegs (pats pid).segments url b.2.1 (pats pid).ts
  if ok then
    (some h, { body := Body.box b.1 vals1 pid true st.body, pools := pools1 })
  else
    (none, reset b.1 vals1 pid true b.2.2 { body := st.body, pools := pools1 })

/-- The parameter-lifecycle operations of one request: a dynamic match attempt
against pattern `pid`, completion of serving the matched handler, and an
explicit `Recycle`. -/
inductive Op where
  | tryMatch (pid : Nat) (h : Nat) (url : GoStr)
  | serveDone
  | recycleReq

/-- One lifecycle step. -/
def step (pats : Nat → PatInfo) (st : ReqState) : Op → ReqState
  | .tryMatch pid h url => (routeDyn pats pid h url st).2
  | .serveDone => serveFlush st
  | .recycleReq => Recycle st

/-- Well-formedness of a body chain: every pooled box wrapped in it has the
capacity its pattern's pool allocates. -/
def BodyOK (pats : Nat → PatInfo) : Body → Prop
  | .reader => True
  | .box cap _ pid hasPool saved =>
      (hasPool = true → cap = (pats pid).num) ∧ BodyOK pats saved

/-- Pool cleanliness (C10): every buffer residing in a pattern's pool has
length zero and capacity equal to that pattern's parameter count. -/
def PoolsClean (pats : Nat → PatInfo) (pools : Pools) : Prop :=
  ∀ pid b, b ∈ pools pid → b.1 = (pats pid).num ∧ b.2.1 = [] ∧ BodyOK pats b.2.2

/-- The full state invariant: clean pools and a well-formed body chain. -/
def Inv (pats : Nat → PatInfo) (st : ReqState) : Prop :=
  PoolsClean pats st.pools ∧ BodyOK pats st.body

end Fastroute

namespace Fastroute

/-- Modelled from the spec: simple case folding for `strings.EqualFold`.  The
ASCII letters and the Latin-1 supplement range (the characters the
repository's routes exercise) fold by adding 32 to the uppercase code point;
0xD7 is the multiplication sign, not a letter. -/
def foldChar (c : Char) : Char :=
  if 'A' ≤ c ∧ c ≤ 'Z' then Char.ofNat (c.toNat + 32)
  else if 0xC0 ≤ c.toNat ∧ c.toNat ≤ 0xDE ∧ c.toNat ≠ 0xD7 then Char.ofNat (c.toNat + 32)
  else c

/-- Modelled from the spec: `strings.EqualFold`, the comparison the fixed-path
redirect matches with ("matched case-insensitively"). -/
def eqFold (a b : GoStr) : Bool := a.map foldChar == b.map foldChar

/-- Modelled from the spec: the segment matcher under a custom path
comparison.  `ComparesPathWith(router, cmp)` is not among the repository's
files (only its callers are); per the spec it replaces the router's byte-exact
path comparisons by `cmp`, leaving the parameter-binding behavior of `match`
unchanged. -/
def matchSegsCmp (cmp : GoStr → GoStr → Bool) :
    List GoStr → GoStr → Params → Bool → Bool × Params
  | [], url, ps, ts =>
    ((!ts && decide (url = [])) || (ts && decide (url = ['/'])), ps)
  | segment :: rest, url, ps, ts =>
    if url.length = 0 then (false, ps)
    else if segment.get? 1 = some ':' then
      matchSegsCmp cmp rest ((url.drop 1).dropWhile (fun c => c ≠ '/'))
        (Params.push ps (segment.drop 2) ((url.drop 1).takeWhile (fun c => c ≠ '/'))) ts
    else if segment.get? 1 = some '*' then
      (true, Params.push ps (segment.drop 2) url)
    else if url.length < segment.length then (false, ps)
    else if cmp (url.take segment.length) segment then
      matchSegsCmp cmp rest (url.drop segment.length) ps ts
    else (false, ps)

/-- The first-match chain over one method's registered routes, as the Muxes
compose them (part_001's `Route` chains with `fastroute.New`, lines 118-128;
mux.go's `optimize` chains the dynamic routes, line 388): the routing decision
for one path. -/
def routePack (pack : List (GoStr × Nat)) : GoStr → Option Nat :=
  Chain (pack.map (fun r => route r.1 r.2))

/-- Modelled from the spec: `ComparesPathWith(router, strings.EqualFold)`
applied to the chain of one method's routes, also exposing the matched
route's pattern and bound parameters, which the redirect code reads back via
`Pattern(req)` and `Parameters(req)` (part_005's boxes record the pattern for
static and dynamic routes alike, lines 632-638 and 664-666). -/
def ciMatchPack (pack : List (GoStr × Nat)) (path : GoStr) :
    Option (GoStr × Params × Nat) :=
  pack.findSome? (fun r =>
    match compilePattern r.1 with
    | .ok (.static p) => if eqFold p path then some (p, [], r.2) else none
    | .ok (.dynamic segs ts _ p) =>
      let res := matchSegsCmp eqFold segs path [] ts
      if res.1 then some (p, res.2, r.2) else none
    | .error _ => none)

/-- The canonical-path reconstruction shared by the fixed-path redirects
(part_001 lines 241-252, mux.go lines 269-282): walk the '/'-split segments of
the matched pattern; a segment containing a marker takes the next bound
parameter value, a static segment keeps the pattern's own text. -/
def fixSegs : List GoStr → Params → List GoStr
  | [], _ => []
  | seg :: rest, params =>
    if seg.any isMark then
      (params.headI).value :: fixSegs rest params.tail
    else
      seg :: fixSegs rest params

/-- `strings.Join(fixed, "/")` over the rebuilt segments. -/
def fixPath (pat : GoStr) (params : Params) : GoStr :=
  joinSlash (fixSegs (splitSlash pat) params)

end Fastroute

namespace Mux

/-- The backtracking of `cleanPath`'s `..` case (mux.go lines 444-457):
starting from index `w`, walk left over the written bytes until index 1 or a
written `'/'` is reached. -/
def backW (out : GoStr) : Nat → Nat
  | 0 => 0
  | 1 => 1
  | Nat.succ (Nat.succ k) =>
    if out.get? (k + 2) = some '/' then k + 2 else backW out (k + 1)

/-- The read loop of `cleanPath` (mux.go lines 426-474) over the unread input,
carrying the written output `out` and the `trailing` flag.  The source's lazy
`buf`/`bufApp` machinery is an allocation optimization: the observable written
bytes are modelled by `out` directly.  The last two cases are the source's
`default` branch (a real path element, whose first character is not `'/'`):
append a separator when output was already written, then copy the element up
to the next separator.  The `fuel` argument is a structural bound on the
number of loop iterations — every iteration consumes at least one unread
character, so the starting fuel `length + 1` is never exhausted; it only makes
the loop structurally recursive so that proofs can evaluate it. -/
def cleanLoop : Nat → GoStr → GoStr → Bool → GoStr × Bool
  | 0, _, out, trailing => (out, trailing)
  | _ + 1, [], out, trailing => (out, trailing)
  | fuel + 1, '/' :: rest, out, trailing => cleanLoop fuel rest out trailing
  | _ + 1, ['.'], out, _ => (out, true)
  | fuel + 1, '.' :: '/' :: rest, out, trailing => cleanLoop fuel rest out trailing
  | fuel + 1, '.' :: '.' :: rest, out, trailing =>
    if rest = [] ∨ rest.head? = some '/' then
      cleanLoop fuel rest
        (if 1 < out.length then out.take (backW out (out.length - 1)) else out) trailing
    else
      cleanLoop fuel (rest.dropWhile (fun c => c ≠ '/'))
        ((if 1 < out.length then out ++ ['/'] else out)
          ++ '.' :: '.' :: rest.takeWhile (fun c => c ≠ '/')) trailing
  | fuel + 1, c :: rest, out, trailing =>
    cleanLoop fuel (rest.dropWhile (fun c => c ≠ '/'))
      ((if 1 < out.length then out ++ ['/'] else out)
        ++ c :: rest.takeWhile (fun c => c ≠ '/')) trailing

/-- Embedding of `cleanPath` (mux.go lines 397-499, taken there from
httprouter): collapse separators, resolve `.` and `..` elements, force one
leading separator, re-append a trailing separator when the input had one. -/
def cleanPath (p : GoStr) : GoStr :=
  if p = [] then ['/']
  else
    let trailing := decide (2 < p.length ∧ p.getLast? = some '/')
    let start := if p.head? ≠ some '/' then p else p.drop 1
    let res := cleanLoop (start.length + 1) start ['/'] trailing
    if res.2 ∧ 1 < res.1.length then res.1 ++ ['/'] else res.1

/-- The request as the policy layer sees it. -/
structure Request where
  method : String
  path : GoStr
deriving DecidableEq, Repr

/-- The observable outcome of serving one request through the compiled server:
the matched route's handler served, a redirect, an auto-OPTIONS reply carrying
the Allow set, a method-not-allowed response carrying the Allow set, or the
not-found fallback. -/
inductive Outcome where
  | served (h : Nat)
  | redirect (status : Nat) (location : GoStr)
  | optionsReply (allow : Finset String)
  | notAllowed (allow : Finset String)
  | notFound
deriving DecidableEq

/-- `http.StatusPermanentRedirect`, the status `redirect` responds with
(mux.go line 358). -/
def statusPermanentRedirect : Nat := 308

/-- The Mux configuration and registered routes (mux.go lines 79-103):
`routes` maps each method to its registered (path, handler) list in
registration order; `methodNotAllowed` tells whether that handler is set. -/
structure MuxSt where
  redirectTrailingSlash : Bool
  redirectFixedPath : Bool
  autoOptionsReply : Bool
  methodNotAllowed : Bool
  routes : List (String × List (GoStr × Nat))

/-- `optimize` for one method (mux.go lines 362-394): marker-free routes go
into the static hashmap consulted first, the rest form the chained dynamic
routes. -/
def matchMethod (pack : List (GoStr × Nat)) (path : GoStr) : Option Nat :=
  match (pack.filter (fun r => ¬ r.1.any Fastroute.isMark)).lookup path with
  | some h => some h
  | none => Fastroute.routePack (pack.filter (fun r => r.1.any Fastroute.isMark)) path

/-- The method-dispatching router member of `Server` (mux.go lines 200-208). -/
def matchReq (m : MuxSt) (req : Request) : Option Nat :=
  match m.routes.lookup req.method with
  | some pack => matchMethod pack req.path
  | none => none

/-- `redirectTrailingSlash` (mux.go lines 219-244): toggle the trailing slash
and retry the same method's router; on a hit, permanent-redirect to the
toggled path.  When the option is off the source returns the plain router as
this chain member. -/
def redirectTrailingSlash (m : MuxSt) (req : Request) : Option Outcome :=
  if ¬ m.redirectTrailingSlash then (matchReq m req).map .served
  else if req.path = ['/'] then none
  else
    let p2 := if req.path.getLast? = some '/' then req.path.dropLast
      else req.path ++ ['/']
    if (matchReq m { method := req.method, path := p2 }).isSome then
      some (.redirect statusPermanentRedirect p2)
    else none

/-- `redirectFixedPath` (mux.go lines 246-287): try the cleaned path exactly
when it differs from the request path, then case-insensitively; a
case-insensitive hit redirects to the canonical path rebuilt from the matched
pattern and its bound parameters.  When the option is off the source returns
the plain router as this chain member. -/
def redirectFixedPath (m : MuxSt) (req : Request) : Option Outcome :=
  if ¬ m.redirectFixedPath then (matchReq m req).map .served
  else
    let p := cleanPath req.path
    let cleanedHit : Option Outcome :=
      if p ≠ req.path ∧ (matchReq m { method := req.method, path := p }).isSome then
        some (.redirect statusPermanentRedirect p)
      else none
    match cleanedHit with
    | some o => some o
    | none =>
      match m.routes.lookup req.method with
      | none => none
      | some pack =>
        match Fastroute.ciMatchPack pack p with
        | none => none
        | some (pat, params, _) =>
          some (.redirect statusPermanentRedirect (Fastroute.fixPath pat params))

/-- `allowed` (mux.go lines 322-353): the Allow set is a map seeded with
OPTIONS, filled with every other method whose router matches the request path
(or every other method when the path is `*`); a set of exactly one — nothing
allowed but the seeded OPTIONS — yields the empty result. -/
def allowed (m : MuxSt) (req : Request) : Finset String :=
  let allow := m.routes.foldl (fun (acc : Finset String) r =>
    if r.1 = req.method then acc
    else if req.path = gs "*" then insert r.1 acc
    else if (matchMethod r.2 req.path).isSome then insert r.1 acc
    else acc) {"OPTIONS"}
  if allow.card = 1 then ∅ else allow

/-- `autoOptions` (mux.go lines 289-303). -/
def autoOptions (m : MuxSt) (req : Request) : Option Outcome :=
  if req.method ≠ "OPTIONS" ∨ ¬ m.autoOptionsReply then none
  else if allowed m req ≠ ∅ then some (.optionsReply (allowed m req))
  else none

/-- `handleMethodNotAllowed` (mux.go lines 305-320). -/
def handleMethodNotAllowed (m : MuxSt) (req : Request) : Option Outcome :=
  if ¬ m.methodNotAllowed then none
  else if allowed m req ≠ ∅ then some (.notAllowed (allowed m req))
  else none

/-- `Server` (mux.go lines 197-217) composed with `RouterFunc.ServeHTTP`'s
not-found fallback (part_005 lines 572-578): the five chain members are tried
in order and the first hit decides the outcome. -/
def serve (m : MuxSt) (req : Request) : Outcome :=
  match [fun r => (matchReq m r).map Outcome.served,
         redirectTrailingSlash m, redirectFixedPath m, autoOptions m,
         handleMethodNotAllowed m].findSome? (fun member => member req) with
  | some o => o
  | none => .notFound

end Mux

namespace MuxV1

/-- Modelled from the spec: part_001 cleans with the standard library's
`path.Clean` (line 222), whose source is outside this repository; per the spec
this is the separator-collapsing, `.`/`..`-resolving cleaner that keeps no
trailing separator except at the root — rendered as mux.go's `cleanPath` with
a trailing separator stripped. -/
def pathClean (p : GoStr) : GoStr :=
  let c := Mux.cleanPath p
  if 1 < c.length ∧ c.getLast? = some '/' then c.dropLast else c

/-- The configuration and registered routes of the part_001 revision of the
Mux (lines 64-97): `notFound` tells whether a custom not-found handler is
set. -/
structure MuxSt where
  redirectTrailingSlash : Bool
  redirectFixedPath : Bool
  autoOptionsReply : Bool
  methodNotAllowed : Bool
  notFound : Bool
  routes : List (String × List (GoStr × Nat))

/-- The method-dispatching router member of part_001's `Server`
(lines 189-198); each method's routes are chained in registration order by
`Route` (lines 118-128). -/
def matchReq (m : MuxSt) (req : Mux.Request) : Option Nat :=
  match m.routes.lookup req.method with
  | some pack => Fastroute.routePack pack req.path
  | none => none

/-- `redirectTrailingOrFixedPath` (part_001 lines 213-257): with both redirect
options on, clean the path, try it and its slash-toggled variant against the
case-insensitive router for the request's method, and on a hit redirect
(`http.StatusMovedPermanently`, 301, line 322) to the canonical path rebuilt
from the matched pattern's static segments and the bound parameter values;
with either option off the source returns the plain router as this member. -/
def redirectTrailingOrFixedPath (m : MuxSt) (req : Mux.Request) :
    Option Mux.Outcome :=
  if ¬ m.redirectFixedPath ∨ ¬ m.redirectTrailingSlash then
    (matchReq m req).map .served
  else
    let p := pathClean req.path
    let attempts := [p] ++
      (if p.getLast? = some '/' then [p.dropLast] else [p ++ ['/']])
    match m.routes.lookup req.method with
    | none => none
    | some pack =>
      attempts.findSome? (fun attempt =>
        match Fastroute.ciMatchPack pack attempt with
        | none => none
        | some (pat, params, _) =>
          some (.redirect 301 (Fastroute.fixPath pat params)))

/-- `allowed` (part_001 lines 286-317): the ordered, duplicate-free list of
the other methods whose router matches the request, with OPTIONS appended
when auto-reply is on and anything was allowed. -/
def allowedList (m : MuxSt) (req : Mux.Request) : List String :=
  let add := fun (l : List String) (s : String) => if s ∈ l then l else l ++ [s]
  let allows := m.routes.foldl (fun acc r =>
    if r.1 = req.method then acc
    else if req.path = gs "*" then add acc r.1
    else if (Fastroute.routePack r.2 req.path).isSome then add acc r.1
    else acc) []
  if allows ≠ [] ∧ m.autoOptionsReply then add allows "OPTIONS" else allows

/-- `autoOptions` (part_001 lines 259-270). -/
def autoOptions (m : MuxSt) (req : Mux.Request) : Option Mux.Outcome :=
  if req.method ≠ "OPTIONS" ∨ ¬ m.autoOptionsReply then none
  else if allowedList m req ≠ [] then
    some (.optionsReply (allowedList m req).toFinset)
  else none

/-- `handleMethodNotAllowed` (part_001 lines 272-284). -/
def handleMethodNotAllowed (m : MuxSt) (req : Mux.Request) : Option Mux.Outcome :=
  if ¬ m.methodNotAllowed then none
  else if allowedList m req ≠ [] then
    some (.notAllowed (allowedList m req).toFinset)
  else none

/-- The custom not-found member (part_001 lines 209-211). -/
def notFoundMember (m : MuxSt) (_req : Mux.Request) : Option Mux.Outcome :=
  if m.notFound then some .notFound else none

/-- part_001's `Server` (lines 189-207) with `RouterFunc.ServeHTTP`'s default
not-found fallback: five chain members tried in order. -/
def serve (m : MuxSt) (req : Mux.Request) : Mux.Outcome :=
  match [fun r => (matchReq m r).map Mux.Outcome.served,
         redirectTrailingOrFixedPath m, autoOptions m,
         handleMethodNotAllowed m, notFoundMember m].findSome?
      (fun member => member req) with
  | some o => o
  | none => .notFound

end MuxV1

namespace Fastroute

theorem takeWhile_append_all {p : Char → Bool} {v w : List Char}
    (h : ∀ c ∈ v, p c = true) : (v ++ w).takeWhile p = v ++ w.takeWhile p := by
  induction v with
  | nil => rfl
  | cons c t ih =>
    rw [List.cons_append, List.takeWhile_cons, h c (by simp), if_pos rfl,
      ih (fun c hc => h c (by simp [hc])), List.cons_append]

theorem dropWhile_append_all {p : Char → Bool} {v w : List Char}
    (h : ∀ c ∈ v, p c = true) : (v ++ w).dropWhile p = w.dropWhile p := by
  induction v with
  | nil => rfl
  | cons c t ih =>
    rw [List.cons_append, List.dropWhile_cons, h c (by simp), if_pos rfl]
    exact ih (fun c hc => h c (by simp [hc]))

/-- One static-segment step of the matcher: when the next bytes of the url are
exactly the segment's text, the segment is consumed. -/
theorem matchSegs_static_step (seg tail : GoStr) (rest : List GoStr) (ps : Params)
    (ts : Bool) (h0 : seg ≠ []) (h1 : seg.get? 1 ≠ some ':') (h2 : seg.get? 1 ≠ some '*') :
    matchSegs (seg :: rest) (seg ++ tail) ps ts = matchSegs rest tail ps ts := by
  have hs : seg.length ≠ 0 := fun hh => h0 (List.length_eq_zero.mp hh)
  have hA : ¬ ((seg ++ tail).length = 0) := by rw [List.length_append]; omega
  have hD : ¬ ((seg ++ tail).length < seg.length) := by rw [List.length_append]; omega
  simp only [matchSegs]
  rw [if_neg hA, if_neg h1, if_neg h2, if_neg hD, if_pos (List.take_left seg tail),
    List.drop_left]

/-- One named-segment step of the matcher: a separator-free run `v` after the
separator is consumed and bound to the key. -/
theorem matchSegs_named_step (key v tail : GoStr) (rest : List GoStr) (ps : Params)
    (ts : Bool) (hv : ∀ c ∈ v, c ≠ '/') :
    matchSegs (('/' :: ':' :: key) :: rest) ('/' :: (v ++ '/' :: tail)) ps ts
      = matchSegs rest ('/' :: tail) (Params.push ps key v) ts := by
  have hv' : ∀ c ∈ v, (decide (c ≠ '/')) = true := fun c hc => by
    simpa using hv c hc
  simp only [matchSegs]
  rw [if_neg (by simp), if_pos (show ('/' :: ':' :: key).get? 1 = some ':' by rfl)]
  have ht : (('/' :: (v ++ '/' :: tail)).drop 1).takeWhile (fun c => c ≠ '/') = v := by
    show (v ++ '/' :: tail).takeWhile (fun c => decide (c ≠ '/')) = v
    rw [takeWhile_append_all hv', List.takeWhile_cons]
    simp
  have hd : (('/' :: (v ++ '/' :: tail)).drop 1).dropWhile (fun c => c ≠ '/')
      = '/' :: tail := by
    show (v ++ '/' :: tail).dropWhile (fun c => decide (c ≠ '/')) = '/' :: tail
    rw [dropWhile_append_all hv', List.dropWhile_cons]
    simp
  rw [ht, hd]
  rfl

end Fastroute

/-- C1: for a pattern ending in a catch-all, once the preceding segments have
matched, the matcher binds the key to the entire remaining path including the
leading separator and succeeds immediately; the part_005 revision of `match`
does exactly that on the documented examples (`/files/*rest` against `/files/`,
`/files/a`, `/files/a/b/c` binds `/`, `/a`, `/a/b/c`, and `/files` does not
match), while the revision in src/router.go — whose own package documentation
states `/files/` matches with `filepath="/"` — drops the leading separator,
binding `""`, `"a"` and `"a/b/c"` instead. -/
theorem catch_all_binding_evaluation :
    Fastroute.compilePattern (gs "/files/*rest")
        = .ok (.dynamic [gs "/files", gs "/*rest"] false 1 (gs "/files/*rest"))
    ∧ Fastroute.matchSegs [gs "/files", gs "/*rest"] (gs "/files/") [] false
        = (true, [⟨gs "rest", gs "/"⟩])
    ∧ Fastroute.matchSegs [gs "/files", gs "/*rest"] (gs "/files/a") [] false
        = (true, [⟨gs "rest", gs "/a"⟩])
    ∧ Fastroute.matchSegs [gs "/files", gs "/*rest"] (gs "/files/a/b/c") [] false
        = (true, [⟨gs "rest", gs "/a/b/c"⟩])
    ∧ (Fastroute.matchSegs [gs "/files", gs "/*rest"] (gs "/files") [] false).1 = false
    ∧ RouterGo.matchSegs [gs "/files", gs "/*rest"] (gs "/files/") [] false
        = (true, [⟨gs "rest", []⟩])
    ∧ RouterGo.matchSegs [gs "/files", gs "/*rest"] (gs "/files/a") [] false
        = (true, [⟨gs "rest", gs "a"⟩])
    ∧ RouterGo.matchSegs [gs "/files", gs "/*rest"] (gs "/files/a/b/c") [] false
        = (true, [⟨gs "rest", gs "a/b/c"⟩])
    ∧ (RouterGo.matchSegs [gs "/files", gs "/*rest"] (gs "/files") [] false).1 = false := by
  decide

/-- C2: for the compiled pattern `/prefix/:x/suffix` and every separator-free
string `v`, matching `/prefix/v/suffix` succeeds and binds exactly `x = v`: the
named segment consumes the bytes up to (excluding) the next separator and binds
its key to that text. -/
theorem named_segment_binds_value (v : GoStr) (hv : ∀ c ∈ v, c ≠ '/') :
    Fastroute.compilePattern (gs "/prefix/:x/suffix")
        = .ok (.dynamic [gs "/prefix", gs "/:x", gs "/suffix"] false 1 (gs "/prefix/:x/suffix"))
    ∧ Fastroute.matchSegs [gs "/prefix", gs "/:x", gs "/suffix"]
        (gs "/prefix/" ++ v ++ gs "/suffix") [] false
      = (true, [⟨gs "x", v⟩]) := by
  refine ⟨by decide, ?_⟩
  calc Fastroute.matchSegs [gs "/prefix", gs "/:x", gs "/suffix"]
        (gs "/prefix/" ++ v ++ gs "/suffix") [] false
      = Fastroute.matchSegs [gs "/:x", gs "/suffix"]
          ('/' :: (v ++ '/' :: gs "suffix")) [] false :=
        Fastroute.matchSegs_static_step (gs "/prefix") ('/' :: (v ++ '/' :: gs "suffix"))
          [gs "/:x", gs "/suffix"] [] false (by decide) (by decide) (by decide)
    _ = Fastroute.matchSegs [gs "/suffix"] ('/' :: gs "suffix")
          (Fastroute.Params.push [] (gs "x") v) false :=
        Fastroute.matchSegs_named_step (gs "x") v (gs "suffix") [gs "/suffix"] [] false hv
    _ = Fastroute.matchSegs [] [] (Fastroute.Params.push [] (gs "x") v) false :=
        Fastroute.matchSegs_static_step (gs "/suffix") [] []
          (Fastroute.Params.push [] (gs "x") v) false (by decide) (by decide) (by decide)
    _ = (true, [⟨gs "x", v⟩]) := rfl

theorem named_segment_binds_value_witness :
    Fastroute.matchSegs [gs "/prefix", gs "/:x", gs "/suffix"]
        (gs "/prefix/ab/suffix") [] false
      = (true, [⟨gs "x", gs "ab"⟩]) :=
  (named_segment_binds_value (gs "ab") (by decide)).2

/-- C3: for segment lists with no catch-all, the matcher succeeds exactly when
the segments consume the url and the unconsumed remainder is `""` for patterns
not ending in a separator and `"/"` for patterns that do (the final check of
`match`, part_005 line 711): a trailing-slash mismatch is never tolerated. -/
theorem trailing_slash_exactness :
    ∀ (segs : List GoStr) (url : GoStr) (ps : Fastroute.Params) (ts : Bool),
      (∀ s ∈ segs, s.get? 1 ≠ some '*') →
      ((Fastroute.matchSegs segs url ps ts).1 = true ↔
        ∃ out, Fastroute.consumeAll segs url ps = some out ∧
          ((ts = false ∧ out.2 = []) ∨ (ts = true ∧ out.2 = ['/']))) := by
  intro segs
  induction segs with
  | nil =>
    intro url ps ts _
    cases ts <;> simp [Fastroute.matchSegs, Fastroute.consumeAll]
  | cons s rest ih =>
    intro url ps ts hnc
    simp only [Fastroute.matchSegs, Fastroute.consumeAll]
    split_ifs with h1 h2 h3 h4 h5
    · simp
    · exact ih _ _ ts (fun t ht => hnc t (List.mem_cons_of_mem _ ht))
    · exact absurd h3 (hnc s (List.mem_cons_self _ _))
    · simp
    · exact ih _ _ ts (fun t ht => hnc t (List.mem_cons_of_mem _ ht))
    · simp

theorem trailing_slash_exactness_witness :
    (Fastroute.matchSegs [gs "/a"] (gs "/a") [] false).1 = true :=
  (trailing_slash_exactness [gs "/a"] (gs "/a") [] false (by decide)).mpr
    ⟨([], []), by decide, Or.inl ⟨rfl, rfl⟩⟩

/-- C4: a chain evaluates its members in exact registration order and returns
the first non-nil handler (`List.findSome?` is that specification); in
particular `/user/new` registered before `/user/:id` resolves `/user/new` to
the first handler, and the reversed order resolves it to the second. -/
theorem chain_first_match_wins :
    (∀ (routes : List (GoStr → Option Nat)) (req : GoStr),
        Fastroute.Chain routes req = routes.findSome? (fun router => router req))
    ∧ Fastroute.Chain [Fastroute.route (gs "/user/new") 1, Fastroute.route (gs "/user/:id") 2]
        (gs "/user/new") = some 1
    ∧ Fastroute.Chain [Fastroute.route (gs "/user/:id") 2, Fastroute.route (gs "/user/new") 1]
        (gs "/user/new") = some 2 := by
  refine ⟨?_, by decide, by decide⟩
  intro routes req
  induction routes with
  | nil => rfl
  | cons r rest ih =>
    cases h : r req <;> simp [Fastroute.Chain, List.findSome?_cons, h, ih]

namespace Fastroute

theorem firstMark_eq_none {s : GoStr} :
    firstMark s = none ↔ ∀ c ∈ s, isMark c = false := by
  induction s with
  | nil => simp [firstMark]
  | cons c t ih =>
    by_cases h : isMark c = true
    · simp [firstMark, h]
    · have h' : isMark c = false := by simpa using h
      simp [firstMark, h', Option.map_eq_none', ih]

theorem any_of_firstMark_some {s : GoStr} {k : Nat} (h : firstMark s = some k) :
    s.any isMark = true := by
  induction s generalizing k with
  | nil => simp [firstMark] at h
  | cons c t ih =>
    by_cases hc : isMark c = true
    · simp [hc]
    · have hc' : isMark c = false := by simpa using hc
      rw [firstMark, if_neg (by simp [hc'])] at h
      rcases Option.map_eq_some'.mp h with ⟨k', hk', _⟩
      simp [hc', ih hk']

theorem mem_of_getLast?_eq {l : List Char} {a : Char} (h : l.getLast? = some a) :
    a ∈ l := by
  induction l with
  | nil => simp at h
  | cons c t ih =>
    cases t with
    | nil =>
      simp at h
      simp [h]
    | cons d u =>
      rw [List.getLast?_cons_cons] at h
      exact List.mem_cons_of_mem _ (ih h)

end Fastroute

namespace Fastroute

/-- `segBad` only inspects its `isLast` argument through negation, so equivalent
propositions give equivalent badness. -/
theorem segBad_congr {seg : GoStr} {P Q : Prop} (h : P ↔ Q) :
    segBad seg P ↔ segBad seg Q := by
  simp only [segBad, h]

/-- The per-segment check fires exactly on the claim's four conditions. -/
theorem checkSeg_isSome_iff (seg : GoStr) (b : Bool) :
    (checkSeg seg b).isSome = true ↔ segBad seg (b = true) := by
  cases seg with
  | nil => simp [checkSeg, firstMark, segBad]
  | cons c t =>
    by_cases hc : isMark c = true
    · have hfm : firstMark (c :: t) = some 0 := by simp [firstMark, hc]
      cases t with
      | nil =>
        have hval : checkSeg [c] b = some .unnamed := by
          simp [checkSeg, hfm]
        rw [hval]
        refine iff_of_true rfl ?_
        exact Or.inr (Or.inl ⟨c, rfl, hc⟩)
      | cons d u =>
        have hlen : ¬ ((c :: d :: u).length - 1 = 0) := by simp
        by_cases hstar : (c :: d :: u).head? = some '*' ∧ ¬ (b = true)
        · have hval : checkSeg (c :: d :: u) b = some .catchAllNotLast := by
            simp only [checkSeg, hfm]
            rw [if_neg (by simp), if_neg hlen, if_pos hstar]
          rw [hval]
          refine iff_of_true rfl (Or.inr (Or.inr (Or.inl ⟨?_, hstar.2⟩)))
          have hcs : c = '*' := by simpa using hstar.1
          simp [hcs]
        · by_cases hany : (d :: u).any isMark = true
          · have hval : checkSeg (c :: d :: u) b = some .onePerSegment := by
              simp only [checkSeg, hfm]
              have hd : List.drop 1 (c :: d :: u) = d :: u := rfl
              rw [if_neg (by simp), if_neg hlen, if_neg hstar, hd, if_pos hany]
            rw [hval]
            refine iff_of_true rfl (Or.inr (Or.inr (Or.inr ?_)))
            have h1 : 0 < (d :: u).countP isMark := by
              rcases List.any_eq_true.mp hany with ⟨a, ha, hma⟩
              exact List.countP_pos_iff.mpr ⟨a, ha, hma⟩
            have h2 : (c :: d :: u).countP isMark = (d :: u).countP isMark + 1 :=
              List.countP_cons_of_pos _ _ hc
            omega
          · have hnone : checkSeg (c :: d :: u) b = none := by
              simp only [checkSeg, hfm]
              have hd : List.drop 1 (c :: d :: u) = d :: u := rfl
              rw [if_neg (by simp), if_neg hlen, if_neg hstar, hd, if_neg hany]
            rw [hnone]
            have hall : ∀ a ∈ d :: u, isMark a = false := by
              intro a ha
              by_contra hcon
              exact hany (List.any_eq_true.mpr ⟨a, ha, by simpa using hcon⟩)
            have hanyf : (d :: u).any isMark = false := by
              simpa using hany
            refine iff_of_false (by simp) ?_
            rintro (h1 | ⟨x, hx, hmx⟩ | ⟨hmem, hlast⟩ | h4)
            · exact absurd h1 (by simp [hanyf])
            · rw [List.getLast?_cons_cons] at hx
              exact absurd hmx (by simp [hall x (mem_of_getLast?_eq hx)])
            · rcases List.mem_cons.mp hmem with hceq | hmem2
              · refine hstar ⟨?_, hlast⟩
                rw [← hceq]
                rfl
              · exact absurd (hall '*' hmem2) (by simp [isMark])
            · have h2 : (c :: d :: u).countP isMark = (d :: u).countP isMark + 1 :=
                List.countP_cons_of_pos _ _ hc
              have h3 : (d :: u).countP isMark = 0 :=
                List.countP_eq_zero.mpr (fun a ha => by simp [hall a ha])
              omega
    · have hc' : isMark c = false := by simpa using hc
      cases hfmt : firstMark t with
      | none =>
        have hfm : firstMark (c :: t) = none := by
          simp [firstMark, hc', hfmt]
        have hnone : checkSeg (c :: t) b = none := by simp [checkSeg, hfm]
        rw [hnone]
        have hall : ∀ a ∈ t, isMark a = false := firstMark_eq_none.mp hfmt
        have hanyf : t.any isMark = false :=
          List.any_eq_false.mpr (fun x hx => by simp [hall x hx])
        refine iff_of_false (by simp) ?_
        rintro (h1 | ⟨x, hx, hmx⟩ | ⟨hmem, hlast⟩ | h4)
        · exact absurd h1 (by simp [hanyf])
        · have hxmem : x ∈ c :: t := mem_of_getLast?_eq hx
          rcases List.mem_cons.mp hxmem with rfl | hx2
          · exact absurd hmx (by simp [hc'])
          · exact absurd hmx (by simp [hall x hx2])
        · rcases List.mem_cons.mp hmem with hceq | hmem2
          · rw [← hceq] at hc'
            exact absurd hc' (by simp [isMark])
          · exact absurd (hall '*' hmem2) (by simp [isMark])
        · have h2 : (c :: t).countP isMark = t.countP isMark :=
            List.countP_cons_of_neg _ _ (by simp [hc'])
          have h3 : t.countP isMark = 0 :=
            List.countP_eq_zero.mpr (fun a ha => by simp [hall a ha])
          omega
      | some k =>
        have hfm : firstMark (c :: t) = some (k + 1) := by
          simp [firstMark, hc', hfmt]
        have hval : checkSeg (c :: t) b = some .notAfterSlash := by
          simp only [checkSeg, hfm]
          rw [if_pos (by omega)]
        rw [hval]
        exact iff_of_true rfl (Or.inl (by simpa using any_of_firstMark_some hfmt))

end Fastroute

namespace Fastroute

/-- The whole validation loop fires exactly when some '/'-split segment is bad,
with the final segment judged under the last-segment rule. -/
theorem checkSegs_isSome_iff (l : List GoStr) :
    (checkSegs l).isSome = true ↔
      ∃ i s, l.get? i = some s ∧ segBad s (i + 1 = l.length) := by
  induction l with
  | nil => simp [checkSegs]
  | cons seg rest ih =>
    cases rest with
    | nil =>
      rw [show checkSegs [seg] = checkSeg seg true from rfl, checkSeg_isSome_iff]
      constructor
      · intro h
        exact ⟨0, seg, rfl, (segBad_congr (by simp)).mp h⟩
      · rintro ⟨i, s, hget, hbad⟩
        cases i with
        | zero =>
          rw [show ([seg] : List GoStr).get? 0 = some seg from rfl] at hget
          cases hget
          exact (segBad_congr (by simp)).mp hbad
        | succ j => simp at hget
    | cons seg2 rest2 =>
      rw [show checkSegs (seg :: seg2 :: rest2)
            = (match checkSeg seg false with
               | some e => some e
               | none => checkSegs (seg2 :: rest2)) from rfl]
      have hlen1 : ((false = true) ↔ (0 + 1 = (seg :: seg2 :: rest2).length)) := by
        simp [List.length_cons]
      cases hcs : checkSeg seg false with
      | some e =>
        refine iff_of_true rfl ?_
        refine ⟨0, seg, rfl, (segBad_congr hlen1).mp ?_⟩
        exact (checkSeg_isSome_iff seg false).mp (by simp [hcs])
      | none =>
        rw [ih]
        constructor
        · rintro ⟨i, s, hget, hbad⟩
          refine ⟨i + 1, s, hget,
            (segBad_congr (by simp only [List.length_cons]; omega)).mp hbad⟩
        · rintro ⟨i, s, hget, hbad⟩
          cases i with
          | zero =>
            rw [show (seg :: seg2 :: rest2).get? 0 = some seg from rfl] at hget
            cases hget
            have hcontra : (checkSeg seg false).isSome = true :=
              (checkSeg_isSome_iff seg false).mpr ((segBad_congr hlen1).mpr hbad)
            rw [hcs] at hcontra
            simp at hcontra
          | succ j =>
            exact ⟨j, s, hget,
              (segBad_congr (by simp only [List.length_cons]; omega)).mpr hbad⟩

end Fastroute

/-- C5: registration of a pattern that contains a parameter marker fails
exactly when some '/'-split segment of the normalized pattern violates one of
the four rules — a marker not at the start of its segment, a marker not
followed by at least one name character, a catch-all marker in a non-final
segment, more than one marker in a segment — and a pattern with no markers is
classified static and passes with no further checks.  The failure is the Go
panic inside `New`, i.e. it happens at registration, never at request time. -/
theorem pattern_validation_exact (path : GoStr) :
    ((Fastroute.normalizePattern path).any Fastroute.isMark = false →
      Fastroute.compilePattern path = .ok (.static (Fastroute.normalizePattern path)))
    ∧ ((Fastroute.normalizePattern path).any Fastroute.isMark = true →
      ((∃ e, Fastroute.compilePattern path = .error e) ↔
        ∃ i s, (Fastroute.rawSegments path).get? i = some s ∧
          Fastroute.segBad s (i + 1 = (Fastroute.rawSegments path).length))) := by
  constructor
  · intro h
    simp only [Fastroute.compilePattern]
    rw [if_pos (by simp [h])]
  · intro h
    have h1 : (∃ e, Fastroute.compilePattern path = .error e) ↔
        (Fastroute.checkSegs (Fastroute.rawSegments path)).isSome = true := by
      simp only [Fastroute.compilePattern]
      rw [if_neg (by simp [h])]
      cases hcs : Fastroute.checkSegs (Fastroute.rawSegments path) <;> simp
    rw [h1, Fastroute.checkSegs_isSome_iff]

theorem pattern_validation_exact_witness :
    Fastroute.compilePattern (gs "/a/b")
        = .ok (.static (Fastroute.normalizePattern (gs "/a/b")))
    ∧ (∃ e, Fastroute.compilePattern (gs "/pa:/a") = .error e) :=
  ⟨(pattern_validation_exact (gs "/a/b")).1 (by decide),
   ((pattern_validation_exact (gs "/pa:/a")).2 (by decide)).mpr
     ⟨0, gs "pa:", by decide, Or.inl (by decide)⟩⟩

/-- C6: after exactly one successful dynamic match — the request body is the
freshly wrapped pooled box over the original reader, which is what a successful
`routeDyn` from a plain request always produces (first conjunct) — recycling
twice equals recycling once: the second `Recycle` is a no-op that neither
touches the pattern's pool nor the request (second conjunct). -/
theorem recycle_twice_is_noop :
    (∀ (pats : Nat → Fastroute.PatInfo) (pid h : Nat) (url : GoStr)
        (pools : Fastroute.Pools),
      (Fastroute.routeDyn pats pid h url ⟨.reader, pools⟩).1.isSome = true →
        ∃ cap vals, (Fastroute.routeDyn pats pid h url ⟨.reader, pools⟩).2.body
          = .box cap vals pid true .reader)
    ∧ ∀ (cap : Nat) (vals : Fastroute.Params) (pid : Nat) (pools : Fastroute.Pools),
        Fastroute.Recycle (Fastroute.Recycle ⟨.box cap vals pid true .reader, pools⟩)
          = Fastroute.Recycle ⟨.box cap vals pid true .reader, pools⟩ := by
  constructor
  · intro pats pid h url pools hsome
    rcases hb : Fastroute.poolGet pats pools pid with ⟨b, pools1⟩
    rcases hm : Fastroute.matchSegs (pats pid).segments url b.2.1 (pats pid).ts
      with ⟨ok, vals1⟩
    simp only [Fastroute.routeDyn, hb, hm] at hsome ⊢
    cases ok
    · simp at hsome
    · exact ⟨b.1, vals1, rfl⟩
  · intro cap vals pid pools
    rfl

theorem recycle_twice_is_noop_witness :
    (∃ cap vals,
      (Fastroute.routeDyn (fun _ => ⟨[gs "/:x"], false, 1⟩) 0 7 (gs "/a")
          ⟨.reader, fun _ => []⟩).2.body = .box cap vals 0 true .reader)
    ∧ Fastroute.Recycle
        (Fastroute.Recycle ⟨.box 1 [⟨gs "x", gs "a"⟩] 0 true .reader, fun _ => []⟩)
      = Fastroute.Recycle ⟨.box 1 [⟨gs "x", gs "a"⟩] 0 true .reader, fun _ => []⟩ :=
  ⟨recycle_twice_is_noop.1 (fun _ => ⟨[gs "/:x"], false, 1⟩) 0 7 (gs "/a")
      (fun _ => []) (by rfl),
   recycle_twice_is_noop.2 1 [⟨gs "x", gs "a"⟩] 0 (fun _ => [])⟩

/-- C10: the pool-cleanliness invariant — every buffer residing in a dynamic
pattern's pool has length zero and capacity equal to that pattern's parameter
count — is preserved by every lifecycle step (failed match attempt,
serve-completion and explicit recycle all funnel through `reset`, which
truncates before returning the buffer); moreover a release always pushes onto
the pool of the pattern that created the box and leaves every other pattern's
pool untouched. -/
theorem pool_cleanliness_invariant (pats : Nat → Fastroute.PatInfo)
    (st : Fastroute.ReqState) (op : Fastroute.Op) (hinv : Fastroute.Inv pats st) :
    Fastroute.Inv pats (Fastroute.step pats st op)
    ∧ (∀ cap vals pid saved, st.body = .box cap vals pid true saved →
        (Fastroute.step pats st .recycleReq).pools pid
            = (cap, [], saved) :: st.pools pid
        ∧ ∀ q, q ≠ pid → (Fastroute.step pats st .recycleReq).pools q = st.pools q) := by
  obtain ⟨hpools, hbody⟩ := hinv
  have hput : ∀ (pools : Fastroute.Pools) (pid : Nat) (b : Fastroute.PoolBuf),
      (∀ q b', b' ∈ pools q →
        b'.1 = (pats q).num ∧ b'.2.1 = [] ∧ Fastroute.BodyOK pats b'.2.2) →
      b.1 = (pats pid).num → b.2.1 = [] → Fastroute.BodyOK pats b.2.2 →
      ∀ q b', b' ∈ Fastroute.putBuf pools pid b q →
        b'.1 = (pats q).num ∧ b'.2.1 = [] ∧ Fastroute.BodyOK pats b'.2.2 := by
    intro pools pid b hclean h1 h2 h3 q b' hb'
    simp only [Fastroute.putBuf] at hb'
    by_cases hq : q = pid
    · subst hq
      rw [if_pos rfl] at hb'
      rcases List.mem_cons.mp hb' with rfl | hb'
      · exact ⟨h1, h2, h3⟩
      · exact hclean q b' hb'
    · rw [if_neg hq] at hb'
      exact hclean q b' hb'
  constructor
  · -- invariant preservation
    cases op with
    | tryMatch pid h url =>
      show Fastroute.Inv pats (Fastroute.routeDyn pats pid h url st).2
      rcases hmem : st.pools pid with _ | ⟨b, rest⟩
      · -- fresh buffer from pool.New
        rcases hm : Fastroute.matchSegs (pats pid).segments url [] (pats pid).ts
          with ⟨ok, vals1⟩
        cases ok
        · -- failed match: reset the fresh box
          have hst : (Fastroute.routeDyn pats pid h url st).2
              = { body := Fastroute.Body.reader,
                  pools := Fastroute.putBuf st.pools pid
                    ((pats pid).num, [], Fastroute.Body.reader) } := by
            simp [Fastroute.routeDyn, Fastroute.poolGet, hmem, hm, Fastroute.reset]
          rw [hst]
          exact ⟨hput st.pools pid _ hpools rfl rfl trivial, trivial⟩
        · -- successful match: wrap the fresh box
          have hst : (Fastroute.routeDyn pats pid h url st).2
              = { body := Fastroute.Body.box (pats pid).num vals1 pid true st.body,
                  pools := st.pools } := by
            simp [Fastroute.routeDyn, Fastroute.poolGet, hmem, hm]
          rw [hst]
          exact ⟨hpools, fun _ => rfl, hbody⟩
      · -- pooled buffer at the head of the free list
        have hbclean := hpools pid b (by rw [hmem]; exact List.mem_cons_self _ _)
        have hrest : ∀ q b', b' ∈ (fun q => if q = pid then rest else st.pools q) q →
            b'.1 = (pats q).num ∧ b'.2.1 = [] ∧ Fastroute.BodyOK pats b'.2.2 := by
          intro q b' hb'
          by_cases hq : q = pid
          · rw [show ((fun q' => if q' = pid then rest else st.pools q') q = rest)
              from if_pos hq] at hb'
            rw [hq]
            exact hpools pid b' (by rw [hmem]; exact List.mem_cons_of_mem _ hb')
          · rw [show ((fun q' => if q' = pid then rest else st.pools q') q = st.pools q)
              from if_neg hq] at hb'
            exact hpools q b' hb'
        rcases hm : Fastroute.matchSegs (pats pid).segments url b.2.1 (pats pid).ts
          with ⟨ok, vals1⟩
        cases ok
        · -- failed match: reset the pooled box
          have hst : (Fastroute.routeDyn pats pid h url st).2
              = { body := b.2.2,
                  pools := Fastroute.putBuf (fun q => if q = pid then rest else st.pools q)
                    pid (b.1, [], b.2.2) } := by
            simp [Fastroute.routeDyn, Fastroute.poolGet, hmem, hm, Fastroute.reset]
          rw [hst]
          exact ⟨hput (fun q => if q = pid then rest else st.pools q) pid (b.1, [], b.2.2)
            hrest hbclean.1 rfl hbclean.2.2, hbclean.2.2⟩
        · -- successful match: wrap the pooled box
          have hst : (Fastroute.routeDyn pats pid h url st).2
              = { body := Fastroute.Body.box b.1 vals1 pid true st.body,
                  pools := fun q => if q = pid then rest else st.pools q } := by
            simp [Fastroute.routeDyn, Fastroute.poolGet, hmem, hm]
          rw [hst]
          exact ⟨hrest, fun _ => hbclean.1, hbody⟩
    | serveDone =>
      cases hbd : st.body with
      | reader =>
        rw [show Fastroute.step pats st .serveDone = st by
          simp [Fastroute.step, Fastroute.serveFlush, hbd]]
        exact ⟨hpools, hbody⟩
      | box cap vals pid hasPool saved =>
        rw [hbd] at hbody
        obtain ⟨hcap, hsaved⟩ := hbody
        have hst : Fastroute.step pats st .serveDone
            = { body := saved,
                pools := if hasPool = true
                  then Fastroute.putBuf st.pools pid (cap, [], saved) else st.pools } := by
          simp [Fastroute.step, Fastroute.serveFlush, hbd, Fastroute.reset]
        rw [hst]
        cases hasPool with
        | false => exact ⟨hpools, hsaved⟩
        | true =>
          exact ⟨hput st.pools pid (cap, [], saved) hpools (hcap rfl) rfl hsaved, hsaved⟩
    | recycleReq =>
      cases hbd : st.body with
      | reader =>
        rw [show Fastroute.step pats st .recycleReq = st by
          simp [Fastroute.step, Fastroute.Recycle, hbd]]
        exact ⟨hpools, hbody⟩
      | box cap vals pid hasPool saved =>
        rw [hbd] at hbody
        obtain ⟨hcap, hsaved⟩ := hbody
        have hst : Fastroute.step pats st .recycleReq
            = { body := saved,
                pools := if hasPool = true
                  then Fastroute.putBuf st.pools pid (cap, [], saved) else st.pools } := by
          simp [Fastroute.step, Fastroute.Recycle, hbd, Fastroute.reset]
        rw [hst]
        cases hasPool with
        | false => exact ⟨hpools, hsaved⟩
        | true =>
          exact ⟨hput st.pools pid (cap, [], saved) hpools (hcap rfl) rfl hsaved, hsaved⟩
  · -- locality of a release
    intro cap vals pid saved hbd
    have hst : Fastroute.step pats st .recycleReq
        = { body := saved,
            pools := Fastroute.putBuf st.pools pid (cap, [], saved) } := by
      simp [Fastroute.step, Fastroute.Recycle, hbd, Fastroute.reset]
    rw [hst]
    exact ⟨by simp [Fastroute.putBuf], fun q hq => by simp [Fastroute.putBuf, hq]⟩

theorem pool_cleanliness_invariant_witness :
    Fastroute.Inv (fun _ => ⟨[gs "/:x"], false, 1⟩)
      (Fastroute.step (fun _ => ⟨[gs "/:x"], false, 1⟩) ⟨.reader, fun _ => []⟩
        (.tryMatch 0 7 (gs "/a"))) :=
  (pool_cleanliness_invariant (fun _ => ⟨[gs "/:x"], false, 1⟩)
    ⟨.reader, fun _ => []⟩ (.tryMatch 0 7 (gs "/a"))
    ⟨fun _ b hb => absurd hb (List.not_mem_nil b), trivial⟩).1

/-- C7: a default-configuration Mux with only `/a/b/` registered for GET does
not serve a GET request for `/a/b` through the route handler: the request
resolves to a redirect whose status is `http.StatusPermanentRedirect` (308)
and whose target is the canonical `/a/b/`. -/
theorem trailing_slash_redirect_outcome :
    Mux.serve ⟨true, true, true, false, [("GET", [(gs "/a/b/", 1)])]⟩
        ⟨"GET", gs "/a/b"⟩
      = .redirect Mux.statusPermanentRedirect (gs "/a/b/")
    ∧ Mux.statusPermanentRedirect = 308 := by
  constructor
  · decide
  · rfl

namespace Fastroute

/-- Reconstruction keeps every marker-free segment verbatim. -/
theorem fixSegs_no_marks {l : List GoStr} {params : Params}
    (h : ∀ seg ∈ l, seg.any isMark = false) : fixSegs l params = l := by
  induction l generalizing params with
  | nil => rfl
  | cons seg rest ih =>
    rw [fixSegs, if_neg (by simp [h seg (by simp)]),
      ih (fun s hs => h s (by simp [hs]))]

end Fastroute

/-- C8: the case-insensitive fixed-path redirect rebuilds its target segment
by segment from the canonical registered pattern: with `/v/Äpfêl/` registered,
requesting `/v/äpfêL` redirects (301) to the canonically-cased `/v/Äpfêl/`;
with `/users/:id/roles/` registered, requesting `/Users/5/Roles` redirects to
`/users/5/roles/` — static segments take the registered casing, the parameter
keeps the value it was matched with; and in general a pattern whose split
segments carry no marker is reproduced verbatim by the reconstruction. -/
theorem fixed_path_redirect_reconstruction :
    MuxV1.serve ⟨true, true, true, false, false, [("GET", [(gs "/v/Äpfêl/", 1)])]⟩
        ⟨"GET", gs "/v/äpfêL"⟩
      = .redirect 301 (gs "/v/Äpfêl/")
    ∧ MuxV1.serve ⟨true, true, true, false, false,
          [("GET", [(gs "/users/:id/roles/", 1)])]⟩
        ⟨"GET", gs "/Users/5/Roles"⟩
      = .redirect 301 (gs "/users/5/roles/")
    ∧ ∀ (pat : GoStr) (params : Fastroute.Params),
        (∀ seg ∈ Fastroute.splitSlash pat, seg.any Fastroute.isMark = false) →
        Fastroute.fixPath pat params = pat := by
  refine ⟨by decide, by decide, ?_⟩
  intro pat params hall
  rw [Fastroute.fixPath, Fastroute.fixSegs_no_marks hall]
  exact List.intercalate_splitOn pat '/'

theorem fixed_path_redirect_reconstruction_witness :
    Fastroute.fixPath (gs "/a/b/") [] = gs "/a/b/" :=
  fixed_path_redirect_reconstruction.2.2 (gs "/a/b/") [] (by decide)

/-- C9: a Mux with the method-not-allowed handler configured and GET and POST
registered on `/x` answers a DELETE for `/x` through that handler, with the
Allow set being exactly the registered methods other than the requested one
plus OPTIONS (which `allowed` seeds unconditionally, and which is reachable
only while auto-OPTIONS reply or method-not-allowed handling is active); the
requested method itself is not in the set. -/
theorem method_not_allowed_allow_set :
    Mux.serve ⟨true, true, true, true,
        [("GET", [(gs "/x", 1)]), ("POST", [(gs "/x", 2)])]⟩
      ⟨"DELETE", gs "/x"⟩
      = .notAllowed {"GET", "POST", "OPTIONS"}
    ∧ "DELETE" ∉ ({"GET", "POST", "OPTIONS"} : Finset String) := by
  constructor
  · have h : Mux.serve ⟨true, true, true, true,
          [("GET", [(gs "/x", 1)]), ("POST", [(gs "/x", 2)])]⟩
        ⟨"DELETE", gs "/x"⟩
        = .notAllowed (insert "POST" (insert "GET" ({"OPTIONS"} : Finset String))) := rfl
    rw [h, Finset.Insert.comm]
  · simp
